import Mathlib

/-!
Verification of the Bytecrafter agent orchestration subsystem
(`src/bytecrafter/main.py`, `src/bytecrafter/agent.py`,
`src/bytecrafter/providers/__init__.py`,
`src/bytecrafter/memory/conversation_manager.py`).

Texts are modelled as `List Char`; Python `re.search` / `re.sub` calls on
the fixed patterns used by the source are modelled by explicit
leftmost-shortest substring scanners; `xml.etree.ElementTree.fromstring`
is modelled by a character-level lexer plus a tree builder over tokens.
-/

set_option maxRecDepth 20000

/-- Characters of a string literal. -/
def str (s : String) : List Char := s.data

/-- Whitespace as stripped by Python `str.strip`. -/
def isWs (c : Char) : Bool :=
  c = ' ' || c = '\t' || c = '\n' || c = '\r' || c = '\x0b' || c = '\x0c'

/-- Python `str.strip()`: drop whitespace from both ends. -/
def trimChars (cs : List Char) : List Char :=
  ((cs.dropWhile isWs).reverse.dropWhile isWs).reverse

/-- `noChar c cs` holds when `c` does not occur in `cs`. -/
def noChar (c : Char) : List Char → Bool
  | [] => true
  | x :: xs => if x = c then false else noChar c xs

/-- Strip `pat` as a literal prefix of `cs`, returning the remainder. -/
def stripPre : List Char → List Char → Option (List Char)
  | [], cs => some cs
  | _ :: _, [] => none
  | p :: ps, c :: cs => if p = c then stripPre ps cs else none

/-- Leftmost occurrence of the literal `pat` in `cs`: returns the part
before the occurrence and the part after it (Python `re.search` on a
literal pattern). -/
def splitFirst (pat : List Char) : List Char → Option (List Char × List Char)
  | [] =>
    match stripPre pat [] with
    | some rest => some ([], rest)
    | none => none
  | c :: cs =>
    match stripPre pat (c :: cs) with
    | some rest => some ([], rest)
    | none => (splitFirst pat cs).map fun pr => (c :: pr.1, pr.2)

/-- Python `pat in s` for a literal pattern. -/
def containsSub (pat cs : List Char) : Bool := (splitFirst pat cs).isSome

/-- Python `s.replace(pat, rep)`: replace every occurrence left to right. -/
def replaceAllGo (pat rep : List Char) : Nat → List Char → List Char
  | 0, cs => cs
  | fuel + 1, cs =>
    match splitFirst pat cs with
    | none => cs
    | some (pre, post) => pre ++ rep ++ replaceAllGo pat rep fuel post

def replaceAllSub (pat rep cs : List Char) : List Char :=
  replaceAllGo pat rep cs.length cs

/-- Python `re.search(open + "(.*?)" + close, s, flags)`: find the
leftmost-shortest span delimited by the two literal tags and return the
captured group.  When `dotall` is false the captured group may not
contain a newline (the `.` of the pattern), and later start positions
are tried, exactly as `re.search` backtracks. -/
def searchTag (dotall : Bool) (openT closeT : List Char) : Nat → List Char → Option (List Char)
  | 0, _ => none
  | fuel + 1, cs =>
    match splitFirst openT cs with
    | none => none
    | some (_, rest) =>
      match splitFirst closeT rest with
      | none => none
      | some (mid, _) =>
        if dotall || noChar '\n' mid then some mid
        else searchTag dotall openT closeT fuel rest

/-- `main.clean_tool_result_for_gemini` /
`ConversationManager._clean_tool_result_for_gemini`: rewrite a
`<tool_result>` record into plain `Tool: X\nResult: Y` (or `Error: Y`)
text; content that does not match the expected pattern is returned
unchanged. -/
def clean_tool_result_for_gemini (content : List Char) : List Char :=
  if containsSub (str "<tool_result>") content && containsSub (str "</tool_result>") content then
    match searchTag false (str "<tool_name>") (str "</tool_name>") content.length content with
    | none => content
    | some toolName =>
      match searchTag true (str "<result>") (str "</result>") content.length content with
      | some result => str "Tool: " ++ toolName ++ str "\nResult: " ++ result
      | none =>
        match searchTag true (str "<error>") (str "</error>") content.length content with
        | some err => str "Tool: " ++ toolName ++ str "\nError: " ++ err
        | none => content
  else content

/-- The `<tool_result>` record built by `run_tool_loop` for a successful
tool dispatch (main.py line 185). -/
def mkToolResultText (toolName result : List Char) : List Char :=
  str "<tool_result><tool_name>" ++ toolName ++ str "</tool_name><result>" ++
    result ++ str "</result></tool_result>"

/-- The `<tool_result>` record built by `run_tool_loop` for a failed
tool dispatch (main.py line 202). -/
def mkToolErrorText (toolName errorMessage : List Char) : List Char :=
  str "<tool_result><tool_name>" ++ toolName ++ str "</tool_name><error>" ++
    errorMessage ++ str "</error></tool_result>"

section SplitFirstLemmas

/-- Executable witness that no occurrence of `pat` starts inside the
prefix `a` of `a ++ rest`. -/
def noPre (pat : List Char) : List Char → List Char → Bool
  | [], _ => true
  | c :: a', rest => !(stripPre pat (c :: (a' ++ rest))).isSome && noPre pat a' rest

theorem splitFirst_skip (pat a rest : List Char) (h : noPre pat a rest = true) :
    splitFirst pat (a ++ rest) =
      (splitFirst pat rest).map fun pr => (a ++ pr.1, pr.2) := by
  induction a with
  | nil =>
    simp only [List.nil_append]
    cases hs : splitFirst pat rest with
    | none => simp [hs]
    | some pr => simp [hs]
  | cons c a' ih =>
    simp only [noPre, Bool.and_eq_true, Bool.not_eq_true'] at h
    obtain ⟨h1, h2⟩ := h
    have hnone : stripPre pat (c :: (a' ++ rest)) = none := by
      cases hx : stripPre pat (c :: (a' ++ rest)) with
      | none => rfl
      | some _ => rw [hx] at h1; simp at h1
    simp only [List.cons_append, splitFirst, List.append_eq, hnone]
    rw [ih h2]
    cases hs : splitFirst pat rest with
    | none => simp
    | some pr => simp

theorem stripPre_none_of_head_ne {p : Char} {ps : List Char} {c : Char} {cs : List Char}
    (h : p ≠ c) : stripPre (p :: ps) (c :: cs) = none := by
  simp [stripPre, h]

theorem noPre_of_noChar {c0 : Char} {pat' a rest : List Char}
    (h : noChar c0 a = true) : noPre (c0 :: pat') a rest = true := by
  induction a with
  | nil => rfl
  | cons c a' ih =>
    simp only [noChar] at h
    by_cases hc : c = c0
    · rw [if_pos hc] at h; exact absurd h (by simp)
    · rw [if_neg hc] at h
      simp only [noPre, Bool.and_eq_true, Bool.not_eq_true']
      constructor
      · rw [stripPre_none_of_head_ne (fun he => hc (he.symm))]
        rfl
      · exact ih h

theorem splitFirst_none_of_noChar {c0 : Char} {pat' a : List Char}
    (h : noChar c0 a = true) : splitFirst (c0 :: pat') a = none := by
  induction a with
  | nil => rfl
  | cons c a' ih =>
    simp only [noChar] at h
    by_cases hc : c = c0
    · rw [if_pos hc] at h; exact absurd h (by simp)
    · rw [if_neg hc] at h
      simp only [splitFirst, stripPre_none_of_head_ne (fun he => hc (he.symm))]
      rw [ih h]
      rfl

end SplitFirstLemmas

/-! ## Conversation store (`memory/conversation_manager.py`) -/

/-- One row of the `Message` table as used by `ConversationManager`. -/
structure StoredMsg where
  role : List Char
  content : List Char
  toolName : Option (List Char)
  toolResult : Option (List Char)
  messageOrder : Nat
deriving DecidableEq

/-- One entry of the history list sent to the provider
(`{"role": r, "parts": [{"text": t}]}`). -/
structure HMsg where
  role : List Char
  text : List Char
deriving DecidableEq

/-- Largest `message_order` in the store (the `order_by desc .first()`
query of `save_message`); `0` for an empty store. -/
def maxOrder (db : List StoredMsg) : Nat :=
  db.foldl (fun m x => max m x.messageOrder) 0

/-- `ConversationManager.save_message`: append a row whose
`message_order` is one more than the current per-conversation maximum. -/
def save_message (db : List StoredMsg) (role content : List Char)
    (toolName toolResult : Option (List Char)) : List StoredMsg :=
  db ++ [⟨role, content, toolName, toolResult, maxOrder db + 1⟩]

/-- Sorting by `message_order` (the `order_by(Message.message_order)` of
`get_conversation_history`), as insertion sort. -/
def insertByOrder (m : StoredMsg) : List StoredMsg → List StoredMsg
  | [] => [m]
  | x :: xs =>
    if m.messageOrder ≤ x.messageOrder then m :: x :: xs else x :: insertByOrder m xs

def sortByOrder : List StoredMsg → List StoredMsg
  | [] => []
  | x :: xs => insertByOrder x (sortByOrder xs)

/-- `ConversationManager.get_conversation_history`: rows ordered by
`message_order`, limited, each content passed through
`_clean_tool_result_for_gemini`; tool metadata is not sent. -/
def get_conversation_history (db : List StoredMsg) (limit : Nat) : List HMsg :=
  ((sortByOrder db).take limit).map fun m =>
    ⟨m.role, clean_tool_result_for_gemini m.content⟩

/-- `main.clean_history_for_gemini` on the in-memory fallback history. -/
def clean_history_for_gemini (h : List HMsg) : List HMsg :=
  h.map fun m => ⟨m.role, clean_tool_result_for_gemini m.text⟩

/-! ## Context enrichment (`main.main`, lines 252-279) -/

/-- `"\n".join(parts)`. -/
def joinNl : List (List Char) → List Char
  | [] => []
  | [x] => x
  | x :: xs => x ++ '\n' :: joinNl xs

/-- The enrichment of the user's raw input with the three retrieval
sources (conversation, project, learned patterns), in that order; empty
snippets contribute nothing and with no snippet the input is unchanged. -/
def enrichInput (input conversation_context project_context learning_context : List Char) :
    List Char :=
  let context_parts :=
    (if conversation_context ≠ [] then [conversation_context] else []) ++
    (if project_context ≠ [] then [project_context] else []) ++
    (if learning_context ≠ [] then [learning_context] else [])
  if context_parts ≠ [] then input ++ str "\n\n" ++ joinNl context_parts else input

/-! ## Provider selection (`providers/__init__.py`) -/

/-- Keys of `_PROVIDER_CLASSES`. -/
def providerRegistry : List (List Char) :=
  [str "gemini", str "openai", str "groq", str "openrouter", str "ollama",
   str "vertex", str "deepseek", str "mistral", str "xai"]

/-- The fixed fallback iteration order of `_auto_select`. -/
def fallbackOrder : List (List Char) :=
  [str "gemini", str "openai", str "groq", str "openrouter", str "deepseek",
   str "mistral", str "ollama", str "vertex", str "xai"]

/-- `instantiate` in `_auto_select`: `None` when the name is unknown or
the adapter's constructor raises `ProviderNotConfigured`; `configured`
says which adapters configure successfully in the environment. -/
def instantiateProvider (configured : List Char → Bool) (name : List Char) :
    Option (List Char) :=
  if name ∈ providerRegistry && configured name then some name else none

def firstConfigured (configured : List Char → Bool) : List (List Char) → Option (List Char)
  | [] => none
  | k :: ks =>
    match instantiateProvider configured k with
    | some p => some p
    | none => firstConfigured configured ks

/-- `_auto_select`: honour `PREFERRED_LLM_PROVIDER` (lower-cased,
default `"auto"`) when that adapter configures, otherwise take the first
adapter of the fixed fallback order that configures; with none
configured the startup fails (`RuntimeError`, modelled as `none`). -/
def auto_select (preferredEnv : Option (List Char)) (configured : List Char → Bool) :
    Option (List Char) :=
  let preferred := (preferredEnv.getD (str "auto")).map Char.toLower
  let fromPreferred :=
    if preferred ≠ str "auto" then instantiateProvider configured preferred else none
  match fromPreferred with
  | some p => some p
  | none => firstConfigured configured fallbackOrder

/-! ## XML parsing (`xml.etree.ElementTree.fromstring` as used by
`parse_agent_response`, modelled by a character-level lexer and a tree
builder; attribute syntax, comments and processing instructions do not
occur in the tool-call markup convention and are rejected). -/

inductive XTok where
  | openTag (name : List Char)
  | closeTag (name : List Char)
  | text (s : List Char)
deriving DecidableEq

inductive LexMode where
  | txt (tacc : List Char)
  | ent (eacc tacc : List Char)
  | tagStart0
  | openName (nacc : List Char)
  | selfClose (nacc : List Char)
  | closeStart
  | closeName (nacc : List Char)
deriving DecidableEq

structure LexSt where
  toks : List XTok
  mode : LexMode
deriving DecidableEq

def entChar (c : Char) : Bool := c.isAlphanum || c = '#'

def nameStartChar (c : Char) : Bool := c.isAlpha || c = '_'

def nameChar (c : Char) : Bool :=
  c.isAlphanum || c = '_' || c = '-' || c = '.' || c = ':'

def hexDigitVal (c : Char) : Option Nat :=
  if '0' ≤ c ∧ c ≤ '9' then some (c.toNat - '0'.toNat)
  else if 'a' ≤ c ∧ c ≤ 'f' then some (c.toNat - 'a'.toNat + 10)
  else if 'A' ≤ c ∧ c ≤ 'F' then some (c.toNat - 'A'.toNat + 10)
  else none

def digitsVal (base : Nat) (digitVal : Char → Option Nat) : List Char → Option Nat → Option Nat
  | [], acc => acc
  | c :: cs, acc =>
    match digitVal c, acc with
    | some d, some a => digitsVal base digitVal cs (some (a * base + d))
    | some d, none => digitsVal base digitVal cs (some d)
    | none, _ => none

def decDigitVal (c : Char) : Option Nat :=
  if '0' ≤ c ∧ c ≤ '9' then some (c.toNat - '0'.toNat) else none

/-- Decode one character or entity reference (`&amp;` `&lt;` `&gt;`
`&quot;` `&apos;` `&#NN;` `&#xHH;`); anything else is not well-formed. -/
def decodeEntity (name : List Char) : Option Char :=
  if name = str "amp" then some '&'
  else if name = str "lt" then some '<'
  else if name = str "gt" then some '>'
  else if name = str "quot" then some '"'
  else if name = str "apos" then some '\x27'
  else
    match name with
    | '#' :: 'x' :: ds =>
      (digitsVal 16 hexDigitVal ds none).bind fun n =>
        if Nat.isValidChar n then some (Char.ofNat n) else none
    | '#' :: ds =>
      (digitsVal 10 decDigitVal ds none).bind fun n =>
        if Nat.isValidChar n then some (Char.ofNat n) else none
    | _ => none

def flushText (toks : List XTok) (tacc : List Char) : List XTok :=
  if tacc = [] then toks else XTok.text tacc.reverse :: toks

/-- One character of lexing; accumulators are kept reversed. -/
def lexStep (st : LexSt) (c : Char) : Option LexSt :=
  match st.mode with
  | .txt tacc =>
    if c = '<' then some ⟨flushText st.toks tacc, .tagStart0⟩
    else if c = '&' then some ⟨st.toks, .ent [] tacc⟩
    else some ⟨st.toks, .txt (c :: tacc)⟩
  | .ent eacc tacc =>
    if c = ';' then
      match decodeEntity eacc.reverse with
      | some ch => some ⟨st.toks, .txt (ch :: tacc)⟩
      | none => none
    else if entChar c then some ⟨st.toks, .ent (c :: eacc) tacc⟩
    else none
  | .tagStart0 =>
    if c = '/' then some ⟨st.toks, .closeStart⟩
    else if nameStartChar c then some ⟨st.toks, .openName [c]⟩
    else none
  | .openName nacc =>
    if c = '>' then some ⟨XTok.openTag nacc.reverse :: st.toks, .txt []⟩
    else if c = '/' then some ⟨st.toks, .selfClose nacc⟩
    else if nameChar c then some ⟨st.toks, .openName (c :: nacc)⟩
    else none
  | .selfClose nacc =>
    if c = '>' then
      some ⟨XTok.closeTag nacc.reverse :: XTok.openTag nacc.reverse :: st.toks, .txt []⟩
    else none
  | .closeStart =>
    if nameStartChar c then some ⟨st.toks, .closeName [c]⟩ else none
  | .closeName nacc =>
    if c = '>' then some ⟨XTok.closeTag nacc.reverse :: st.toks, .txt []⟩
    else if nameChar c then some ⟨st.toks, .closeName (c :: nacc)⟩
    else none

def lexRun (st : LexSt) : List Char → Option LexSt
  | [] => some st
  | c :: cs => (lexStep st c).bind fun st' => lexRun st' cs

/-- At end of input the lexer must be in text mode (no unterminated tag
or entity); the token list is returned in document order. -/
def lexFinish (st : LexSt) : Option (List XTok) :=
  match st.mode with
  | .txt tacc => some (flushText st.toks tacc).reverse
  | _ => none

def lexTokens (cs : List Char) : Option (List XTok) :=
  (lexRun ⟨[], .txt []⟩ cs).bind lexFinish

/-- Element tree of `ElementTree`: tag, text before the first child,
children (tails after children are not used by the source and are
dropped). -/
inductive XElem where
  | mk (tag : List Char) (text : Option (List Char)) (children : List XElem)

def XElem.tag : XElem → List Char
  | .mk t _ _ => t

def XElem.textOf : XElem → Option (List Char)
  | .mk _ t _ => t

def XElem.children : XElem → List XElem
  | .mk _ _ c => c

structure BuildFrame where
  tag : List Char
  text : Option (List Char)
  childrenRev : List XElem

def isWsTextTok : XTok → Bool
  | .text s => s.all isWs
  | _ => false

/-- Build the element tree from the token stream; mismatched close tags
and junk around the document element are not well-formed. -/
def buildGo : List XTok → BuildFrame → List BuildFrame → Option XElem
  | [], _, _ => none
  | XTok.text s :: rest, cur, stk =>
    if cur.childrenRev.isEmpty && cur.text.isNone then
      buildGo rest { cur with text := some s } stk
    else buildGo rest cur stk
  | XTok.openTag t :: rest, cur, stk => buildGo rest ⟨t, none, []⟩ (cur :: stk)
  | XTok.closeTag t :: rest, cur, stk =>
    if t = cur.tag then
      let elem := XElem.mk cur.tag cur.text cur.childrenRev.reverse
      match stk with
      | parent :: stk' =>
        buildGo rest { parent with childrenRev := elem :: parent.childrenRev } stk'
      | [] => if rest.all isWsTextTok then some elem else none
    else none

def buildDoc (toks : List XTok) : Option XElem :=
  match toks.dropWhile isWsTextTok with
  | XTok.openTag t :: rest => buildGo rest ⟨t, none, []⟩ []
  | _ => none

/-- `ET.fromstring`. -/
def xmlParse (cs : List Char) : Option XElem :=
  (lexTokens cs).bind buildDoc

/-! ## Response parser (`main.parse_agent_response`) -/

/-- Python `html.escape` (with quoting), as applied by the lenient
escaping pass to the captured field body. -/
def htmlEscape : List Char → List Char
  | [] => []
  | c :: cs =>
    (if c = '&' then str "&amp;"
     else if c = '<' then str "&lt;"
     else if c = '>' then str "&gt;"
     else if c = '"' then str "&quot;"
     else if c = '\x27' then str "&#x27;"
     else [c]) ++ htmlEscape cs

/-- `re.sub(rf"<{tag}>(.*?)</{tag}>", escape-body, s, flags=re.DOTALL)`:
every leftmost-shortest span between the two literal tags has its body
escaped. -/
def subEscape (openT closeT : List Char) : Nat → List Char → List Char
  | 0, cs => cs
  | fuel + 1, cs =>
    match splitFirst openT cs with
    | none => cs
    | some (pre, rest) =>
      match splitFirst closeT rest with
      | none => cs
      | some (mid, post) =>
        pre ++ openT ++ htmlEscape mid ++ closeT ++ subEscape openT closeT fuel post

def subEscTag (tag : String) (cs : List Char) : List Char :=
  subEscape (str ("<" ++ tag ++ ">")) (str ("</" ++ tag ++ ">")) cs.length cs

/-- Step 2 of the parser: the lenient escaping pass over the four
free-text-bearing fields, in source order. -/
def escapeFields (cs : List Char) : List Char :=
  subEscTag "answer" (subEscTag "question" (subEscTag "result" (subEscTag "command" cs)))

/-- Step 1 of the parser: remove markdown fences and strip. -/
def stripFences (cs : List Char) : List Char :=
  trimChars (replaceAllSub (str "```") [] (replaceAllSub (str "```xml") [] cs))

/-- Step 3: wrap in a synthetic root element. -/
def wrapRoot (cs : List Char) : List Char := str "<root>" ++ cs ++ str "</root>"

/-- The reserved wrapper/reasoning tags skipped by the action scan
(main.py line 98). -/
def reservedTags : List (List Char) := [str "thinking", str "root", str "tool_result"]

/-- `root.find("thinking")`: first direct child with the given tag. -/
def findChildTag (tag : List Char) : List XElem → Option XElem
  | [] => none
  | e :: es => if e.tag = tag then some e else findChildTag tag es

/-- The scan of main.py lines 96-100: first child whose tag is not
reserved. -/
def firstNonReserved : List XElem → Option XElem
  | [] => none
  | e :: es => if e.tag ∉ reservedTags then some e else firstNonReserved es

/-- Python dict insertion for the parameter comprehension of line 107:
first-insertion order, later duplicate keys overwrite the value. -/
def dictInsert (m : List (List Char × List Char)) (k v : List Char) :
    List (List Char × List Char) :=
  if (m.find? fun p => p.1 == k).isSome then
    m.map fun p => if p.1 = k then (k, v) else p
  else m ++ [(k, v)]

/-- `{child.tag: child.text.strip() if child.text else "" for child in tool_element}`. -/
def paramsOfChildren (children : List XElem) : List (List Char × List Char) :=
  children.foldl (fun m c => dictInsert m c.tag (trimChars (c.textOf.getD []))) []

/-- Result triple of `parse_agent_response`: thinking text, optional
tool name, parameter mapping. -/
abbrev ParseOut := List Char × Option (List Char) × List (List Char × List Char)

/-- Steps 4-6 of `parse_agent_response` on the parsed root element. -/
def extractResponse (root : XElem) : ParseOut :=
  let thinking :=
    match findChildTag (str "thinking") root.children with
    | some e => trimChars (e.textOf.getD [])
    | none => []
  match firstNonReserved root.children with
  | none => (thinking, none, [])
  | some toolElement =>
    (thinking, some toolElement.tag, paramsOfChildren toolElement.children)

/-- `main.parse_agent_response`: `none` models the `return None` of the
`ET.ParseError` handler. -/
def parse_agent_response (s : List Char) : Option ParseOut :=
  (xmlParse (wrapRoot (escapeFields (stripFences s)))).map extractResponse

/-! ## LLM wrapper and control loop (`agent.get_llm_response`,
`main.run_tool_loop`, `main.main`) -/

/-- The response dictionary observed by the loop: an `"error"` entry, or
a `"content"` entry. -/
inductive LlmResult where
  | errorRes (e : List Char)
  | content (c : List Char)
deriving DecidableEq

/-- `agent.get_llm_response`: the provider's `generate` either returns
content or raises (modelled as `Except.error`); a raised exception is
converted into an error dictionary, never re-raised. -/
def get_llm_response (generated : Except (List Char) (List Char)) : LlmResult :=
  match generated with
  | .ok c => .content c
  | .error e => .errorRes (str "LLM provider error: " ++ e)

/-- The persistent store plus the in-memory fallback history plus the
conversation completion status. -/
structure LoopState where
  db : List StoredMsg
  mem : List HMsg
  convCompleted : Bool
deriving DecidableEq

/-- How one iteration of the `while True:` body of `run_tool_loop`
ends. -/
inductive LoopExit where
  | nextModelCall
  | apiError
  | parseFail
  | pausedNoTool
  | askQuestion
  | completedTask
  | toolError
deriving DecidableEq

/-- History assembly at the top of the loop body (main.py lines 127-134). -/
def loopHistory (memoryEnabled : Bool) (st : LoopState) : List HMsg :=
  if memoryEnabled then
    let h := get_conversation_history st.db 50
    if h.isEmpty then clean_history_for_gemini st.mem else h
  else clean_history_for_gemini st.mem

/-- `f"Error executing tool {tool_name}: {e}"`. -/
def errMsg (toolName e : List Char) : List Char :=
  str "Error executing tool " ++ toolName ++ str ": " ++ e

/-- One iteration of the body of `run_tool_loop` (main.py lines
124-216): call the model on the assembled history, record the response,
parse it, branch on the tool name, dispatch, record the result or the
caught error.  `dispatch` is the tool boundary: `Except.error` models a
handler raising. -/
def run_tool_loop_iter (memoryEnabled : Bool)
    (llm : List HMsg → LlmResult)
    (dispatch : List Char → List (List Char × List Char) → Except (List Char) (List Char))
    (st : LoopState) : LoopState × LoopExit :=
  match llm (loopHistory memoryEnabled st) with
  | .errorRes _ => (st, .apiError)
  | .content c =>
    let st1 : LoopState :=
      { st with db := save_message st.db (str "model") c none none,
                mem := st.mem ++ [⟨str "model", c⟩] }
    match parse_agent_response c with
    | none => (st1, .parseFail)
    | some (_, none, _) => (st1, .pausedNoTool)
    | some (_, some toolName, toolArgs) =>
      if toolName = str "ask_followup_question" then (st1, .askQuestion)
      else if toolName = str "attempt_completion" then
        ({ st1 with convCompleted := true }, .completedTask)
      else
        match dispatch toolName toolArgs with
        | .ok toolResult =>
          let txt := mkToolResultText toolName toolResult
          ({ st1 with
              db := save_message st1.db (str "user") txt (some toolName) (some toolResult),
              mem := st1.mem ++ [⟨str "user", txt⟩] }, .nextModelCall)
        | .error e =>
          let msg := errMsg toolName e
          let txt := mkToolErrorText toolName msg
          ({ st1 with
              db := save_message st1.db (str "user") txt (some toolName) (some msg),
              mem := st1.mem ++ [⟨str "user", txt⟩] }, .toolError)

/-- Handling of one fresh user input in `main` with memory enabled
(lines 252-281): enrich with the three retrieval sources, persist the
enriched text and append it to the fallback history. -/
def process_user_turn (memoryEnabled : Bool) (st : LoopState)
    (userInput conversationCtx projectCtx learningCtx : List Char) : LoopState :=
  if memoryEnabled then
    let enriched := enrichInput userInput conversationCtx projectCtx learningCtx
    { st with db := save_message st.db (str "user") enriched none none,
              mem := st.mem ++ [⟨str "user", enriched⟩] }
  else { st with mem := st.mem ++ [⟨str "user", userInput⟩] }

/-! ## Helper lemmas: provider selection -/

theorem instantiate_none_of_not_configured {configured : List Char → Bool} {n : List Char}
    (h : configured n = false) : instantiateProvider configured n = none := by
  simp [instantiateProvider, h]

theorem instantiate_none_of_not_mem {configured : List Char → Bool} {n : List Char}
    (h : n ∉ providerRegistry) : instantiateProvider configured n = none := by
  simp [instantiateProvider, h]

theorem instantiate_some {configured : List Char → Bool} {n : List Char}
    (hmem : n ∈ providerRegistry) (hc : configured n = true) :
    instantiateProvider configured n = some n := by
  simp [instantiateProvider, hmem, hc]

theorem firstConfigured_eq_some {configured : List Char → Bool} :
    ∀ (l : List (List Char)) (K : List Char), K ∈ l →
      (∀ j ∈ l, j ∈ providerRegistry) →
      (∀ j ∈ l, configured j = true → j = K) → configured K = true →
      firstConfigured configured l = some K := by
  intro l
  induction l with
  | nil => intro K hK; exact absurd hK (List.not_mem_nil K)
  | cons k ks ih =>
    intro K hK hreg huniq hcK
    by_cases hck : configured k = true
    · have hkK : k = K := huniq k (List.mem_cons_self k ks) hck
      have hkreg : K ∈ providerRegistry := hkK ▸ hreg k (List.mem_cons_self k ks)
      subst hkK
      simp [firstConfigured, instantiate_some hkreg hcK]
    · have hck' : configured k = false := by
        cases hx : configured k with
        | true => exact absurd hx hck
        | false => rfl
      have hKks : K ∈ ks := by
        rcases List.mem_cons.mp hK with h | h
        · rw [h] at hcK; exact absurd hcK hck
        · exact h
      simp only [firstConfigured, instantiate_none_of_not_configured hck']
      exact ih K hKks (fun j hj => hreg j (List.mem_cons_of_mem k hj))
        (fun j hj => huniq j (List.mem_cons_of_mem k hj)) hcK

theorem firstConfigured_eq_none {configured : List Char → Bool} :
    ∀ l : List (List Char), (∀ j ∈ l, configured j = false) →
      firstConfigured configured l = none := by
  intro l
  induction l with
  | nil => intro _; rfl
  | cons k ks ih =>
    intro h
    simp only [firstConfigured,
      instantiate_none_of_not_configured (h k (List.mem_cons_self k ks))]
    exact ih fun j hj => h j (List.mem_cons_of_mem k hj)

theorem fallback_subset_registry : ∀ j ∈ fallbackOrder, j ∈ providerRegistry := by decide

/-- Claim C4: provider selection honours a configured preferred
provider; otherwise it returns the first adapter of the fixed
priority-ordered fallback list that configures — in particular the
unique configuring adapter K whenever exactly one configures — and
yields no provider handle (fatal configuration error) when none
configures. -/
theorem C4_provider_selection (preferredEnv : Option (List Char))
    (configured : List Char → Bool) :
    ((preferredEnv.getD (str "auto")).map Char.toLower ≠ str "auto" →
      (preferredEnv.getD (str "auto")).map Char.toLower ∈ providerRegistry →
      configured ((preferredEnv.getD (str "auto")).map Char.toLower) = true →
      auto_select preferredEnv configured
        = some ((preferredEnv.getD (str "auto")).map Char.toLower)) ∧
    (∀ K, K ∈ fallbackOrder → configured K = true →
      (∀ j ∈ providerRegistry, configured j = true → j = K) →
      auto_select preferredEnv configured = some K) ∧
    ((∀ j ∈ providerRegistry, configured j = false) →
      auto_select preferredEnv configured = none) := by
  refine ⟨?_, ?_, ?_⟩
  · intro hne hreg hconf
    simp [auto_select, hne, instantiate_some hreg hconf]
  · intro K hKfb hcK huniq
    have hfb : firstConfigured configured fallbackOrder = some K :=
      firstConfigured_eq_some fallbackOrder K hKfb fallback_subset_registry
        (fun j hj hc => huniq j (fallback_subset_registry j hj) hc) hcK
    unfold auto_select
    by_cases hauto : (preferredEnv.getD (str "auto")).map Char.toLower = str "auto"
    · simp [hauto, hfb]
    · by_cases hmem : (preferredEnv.getD (str "auto")).map Char.toLower ∈ providerRegistry
      · by_cases hcp : configured ((preferredEnv.getD (str "auto")).map Char.toLower) = true
        · have hpK : (preferredEnv.getD (str "auto")).map Char.toLower = K :=
            huniq _ hmem hcp
          have hKauto : K ≠ str "auto" := fun he => hauto (hpK.trans he)
          have hKreg : K ∈ providerRegistry := hpK ▸ hmem
          simp [hpK, hKauto, instantiate_some hKreg hcK, hfb]
        · have hcp' : configured ((preferredEnv.getD (str "auto")).map Char.toLower) = false := by
            cases hx : configured ((preferredEnv.getD (str "auto")).map Char.toLower) with
            | true => exact absurd hx hcp
            | false => rfl
          simp [hauto, instantiate_none_of_not_configured hcp', hfb]
      · simp [hauto, instantiate_none_of_not_mem hmem, hfb]
  · intro hnone
    have hfb : firstConfigured configured fallbackOrder = none :=
      firstConfigured_eq_none fallbackOrder
        (fun j hj => hnone j (fallback_subset_registry j hj))
    unfold auto_select
    by_cases hauto : (preferredEnv.getD (str "auto")).map Char.toLower = str "auto"
    · simp [hauto, hfb]
    · by_cases hmem : (preferredEnv.getD (str "auto")).map Char.toLower ∈ providerRegistry
      · simp [hauto, instantiate_none_of_not_configured (hnone _ hmem), hfb]
      · simp [hauto, instantiate_none_of_not_mem hmem, hfb]

theorem C4_provider_selection_witness :
    auto_select (some (str "Mistral")) (fun n => n == str "groq") = some (str "groq") ∧
    auto_select none (fun _ => false) = none :=
  ⟨(C4_provider_selection (some (str "Mistral")) (fun n => n == str "groq")).2.1
      (str "groq") (by decide) (by decide) (by decide),
   (C4_provider_selection none (fun _ => false)).2.2 (by decide)⟩

/-- Claim C5: with memory enabled, the enriched text — raw user input
with the non-empty retrieval snippets appended in the fixed order
conversation, project, learned patterns — is both persisted as the
Turn's content and appended to the history sent onward; when every
source returns empty the Turn content is the raw input unchanged. -/
theorem C5_context_enrichment (st : LoopState)
    (input conversationCtx projectCtx learningCtx : List Char) :
    (process_user_turn true st input conversationCtx projectCtx learningCtx).db
      = save_message st.db (str "user")
          (enrichInput input conversationCtx projectCtx learningCtx) none none ∧
    (process_user_turn true st input conversationCtx projectCtx learningCtx).mem
      = st.mem ++ [⟨str "user", enrichInput input conversationCtx projectCtx learningCtx⟩] ∧
    (conversationCtx = [] → projectCtx = [] → learningCtx = [] →
      enrichInput input conversationCtx projectCtx learningCtx = input) ∧
    (conversationCtx ≠ [] → projectCtx ≠ [] → learningCtx ≠ [] →
      enrichInput input conversationCtx projectCtx learningCtx
        = input ++ str "\n\n" ++ (conversationCtx ++ '\n' :: (projectCtx ++ '\n' :: learningCtx))) ∧
    (conversationCtx ≠ [] → projectCtx = [] → learningCtx = [] →
      enrichInput input conversationCtx projectCtx learningCtx
        = input ++ str "\n\n" ++ conversationCtx) := by
  refine ⟨rfl, rfl, ?_, ?_, ?_⟩
  · intro h1 h2 h3
    simp [enrichInput, h1, h2, h3]
  · intro h1 h2 h3
    simp [enrichInput, h1, h2, h3, joinNl]
  · intro h1 h2 h3
    simp [enrichInput, h1, h2, h3, joinNl]

theorem C5_context_enrichment_witness :
    enrichInput (str "hi") [] [] [] = str "hi" ∧
    enrichInput (str "hi") (str "C") [] [] = str "hi" ++ str "\n\n" ++ str "C" :=
  ⟨(C5_context_enrichment ⟨[], [], false⟩ (str "hi") [] [] []).2.2.1 rfl rfl rfl,
   (C5_context_enrichment ⟨[], [], false⟩ (str "hi") (str "C") [] []).2.2.2.2
      (by decide) rfl rfl⟩

/-- Claim C9: `get_llm_response` converts any exception raised by the
selected provider's `generate` into an `"error"` dictionary value and
never re-raises; the loop's only reaction to such a result is to
surface the error and end the current run with the state unchanged. -/
theorem C9_llm_wrapper_errors_as_values (e : List Char) (memoryEnabled : Bool)
    (genf : List HMsg → Except (List Char) (List Char))
    (dispatch : List Char → List (List Char × List Char) → Except (List Char) (List Char))
    (st : LoopState)
    (hgen : genf (loopHistory memoryEnabled st) = Except.error e) :
    get_llm_response (Except.error e) = .errorRes (str "LLM provider error: " ++ e) ∧
    run_tool_loop_iter memoryEnabled (fun h => get_llm_response (genf h)) dispatch st
      = (st, .apiError) := by
  refine ⟨rfl, ?_⟩
  simp [run_tool_loop_iter, hgen, get_llm_response]

theorem C9_llm_wrapper_errors_as_values_witness :
    get_llm_response (Except.error (str "boom"))
      = .errorRes (str "LLM provider error: " ++ str "boom") ∧
    run_tool_loop_iter false (fun h => get_llm_response ((fun _ => Except.error (str "boom")) h))
      (fun _ _ => Except.ok []) ⟨[], [], false⟩
      = (⟨[], [], false⟩, .apiError) :=
  C9_llm_wrapper_errors_as_values (str "boom") false (fun _ => Except.error (str "boom"))
    (fun _ _ => Except.ok []) ⟨[], [], false⟩ rfl

/-! ## Claims C1, C6, C7 about the autonomous loop -/

/-- A concrete parseable model response invoking a generic tool, used to
exercise the loop at a concrete input. -/
def cexToolResponse : List Char :=
  str "<thinking>t</thinking><write_to_file><path>a.txt</path><content>data</content></write_to_file>"

/-- Claim C1 (counterexample): with a handler that raises, the loop does
not transition to the next model call — the iteration ends the
autonomous run. -/
theorem C1_counterexample :
    (run_tool_loop_iter true (fun _ => .content cexToolResponse)
        (fun _ _ => Except.error (str "boom")) ⟨[], [], false⟩).2 = LoopExit.toolError ∧
    LoopExit.toolError ≠ LoopExit.nextModelCall := by
  constructor
  · rfl
  · decide

/-- Claim C1 (amended): when a parsed generic tool invocation's handler
raises, the dispatcher boundary catches the error, converts it into a
textual error-result Turn that is appended to the conversation history
and persisted — the process does not crash — but the loop then breaks
out of the autonomous run (no automatic next model call). -/
theorem C1_tool_error_recorded_and_loop_breaks
    (memoryEnabled : Bool) (llm : List HMsg → LlmResult)
    (dispatch : List Char → List (List Char × List Char) → Except (List Char) (List Char))
    (st : LoopState) (c th toolName : List Char)
    (args : List (List Char × List Char)) (e : List Char)
    (hllm : llm (loopHistory memoryEnabled st) = .content c)
    (hparse : parse_agent_response c = some (th, some toolName, args))
    (h1 : toolName ≠ str "ask_followup_question")
    (h2 : toolName ≠ str "attempt_completion")
    (hdisp : dispatch toolName args = Except.error e) :
    run_tool_loop_iter memoryEnabled llm dispatch st =
      ({ st with
          db := save_message (save_message st.db (str "model") c none none) (str "user")
                  (mkToolErrorText toolName (errMsg toolName e)) (some toolName)
                  (some (errMsg toolName e)),
          mem := st.mem ++ [⟨str "model", c⟩,
                  ⟨str "user", mkToolErrorText toolName (errMsg toolName e)⟩] },
        .toolError) := by
  simp [run_tool_loop_iter, hllm, hparse, h1, h2, hdisp]

theorem C1_tool_error_recorded_and_loop_breaks_witness :
    run_tool_loop_iter true (fun _ => .content cexToolResponse)
        (fun _ _ => Except.error (str "boom")) ⟨[], [], false⟩ =
      ({ db := save_message (save_message [] (str "model") cexToolResponse none none)
                 (str "user")
                 (mkToolErrorText (str "write_to_file")
                   (errMsg (str "write_to_file") (str "boom")))
                 (some (str "write_to_file"))
                 (some (errMsg (str "write_to_file") (str "boom"))),
          mem := [] ++ [⟨str "model", cexToolResponse⟩,
                  ⟨str "user", mkToolErrorText (str "write_to_file")
                    (errMsg (str "write_to_file") (str "boom"))⟩],
          convCompleted := false },
        .toolError) :=
  C1_tool_error_recorded_and_loop_breaks true _ _ ⟨[], [], false⟩ cexToolResponse
    (str "t") (str "write_to_file")
    [(str "path", str "a.txt"), (str "content", str "data")] (str "boom")
    rfl (by decide) (by decide) (by decide) rfl

/-- Claim C7: a successful dispatch of a generic (non-reserved) tool
appends the result Turn to history and store and the iteration ends in
the model-call-pending continuation — never in the awaiting-user-input
pauses. -/
theorem C7_successful_dispatch_continues_loop
    (memoryEnabled : Bool) (llm : List HMsg → LlmResult)
    (dispatch : List Char → List (List Char × List Char) → Except (List Char) (List Char))
    (st : LoopState) (c th toolName : List Char)
    (args : List (List Char × List Char)) (r : List Char)
    (hllm : llm (loopHistory memoryEnabled st) = .content c)
    (hparse : parse_agent_response c = some (th, some toolName, args))
    (h1 : toolName ≠ str "ask_followup_question")
    (h2 : toolName ≠ str "attempt_completion")
    (hdisp : dispatch toolName args = Except.ok r) :
    run_tool_loop_iter memoryEnabled llm dispatch st =
      ({ st with
          db := save_message (save_message st.db (str "model") c none none) (str "user")
                  (mkToolResultText toolName r) (some toolName) (some r),
          mem := st.mem ++ [⟨str "model", c⟩, ⟨str "user", mkToolResultText toolName r⟩] },
        .nextModelCall) ∧
    LoopExit.nextModelCall ≠ LoopExit.pausedNoTool ∧
    LoopExit.nextModelCall ≠ LoopExit.askQuestion := by
  refine ⟨?_, by decide, by decide⟩
  simp [run_tool_loop_iter, hllm, hparse, h1, h2, hdisp]

theorem C7_successful_dispatch_continues_loop_witness :
    run_tool_loop_iter true (fun _ => .content cexToolResponse)
        (fun _ _ => Except.ok (str "ok")) ⟨[], [], false⟩ =
      ({ db := save_message (save_message [] (str "model") cexToolResponse none none)
                 (str "user") (mkToolResultText (str "write_to_file") (str "ok"))
                 (some (str "write_to_file")) (some (str "ok")),
          mem := [] ++ [⟨str "model", cexToolResponse⟩,
                  ⟨str "user", mkToolResultText (str "write_to_file") (str "ok")⟩],
          convCompleted := false },
        .nextModelCall) ∧
    LoopExit.nextModelCall ≠ LoopExit.pausedNoTool ∧
    LoopExit.nextModelCall ≠ LoopExit.askQuestion :=
  C7_successful_dispatch_continues_loop true _ _ ⟨[], [], false⟩ cexToolResponse
    (str "t") (str "write_to_file")
    [(str "path", str "a.txt"), (str "content", str "data")] (str "ok")
    rfl (by decide) (by decide) (by decide) rfl

/-- Claim C6: a model response whose markup cannot be parsed as a
structured tree makes the parser return the failure value (no partial or
incorrect tool name), and the loop then halts the turn's processing
instead of issuing another model call. -/
theorem C6_malformed_markup_hard_failure
    (memoryEnabled : Bool) (llm : List HMsg → LlmResult)
    (dispatch : List Char → List (List Char × List Char) → Except (List Char) (List Char))
    (st : LoopState) (c : List Char)
    (hllm : llm (loopHistory memoryEnabled st) = .content c)
    (hbad : xmlParse (wrapRoot (escapeFields (stripFences c))) = none) :
    parse_agent_response c = none ∧
    run_tool_loop_iter memoryEnabled llm dispatch st =
      ({ st with db := save_message st.db (str "model") c none none,
                 mem := st.mem ++ [⟨str "model", c⟩] },
        .parseFail) ∧
    LoopExit.parseFail ≠ LoopExit.nextModelCall := by
  have hp : parse_agent_response c = none := by
    simp [parse_agent_response, hbad]
  refine ⟨hp, ?_, by decide⟩
  simp [run_tool_loop_iter, hllm, hp]

theorem C6_malformed_markup_hard_failure_witness :
    parse_agent_response (str "<thinking>unclosed") = none ∧
    run_tool_loop_iter false (fun _ => .content (str "<thinking>unclosed"))
        (fun _ _ => Except.ok []) ⟨[], [], false⟩ =
      ({ db := save_message [] (str "model") (str "<thinking>unclosed") none none,
          mem := [] ++ [⟨str "model", str "<thinking>unclosed"⟩],
          convCompleted := false },
        .parseFail) ∧
    LoopExit.parseFail ≠ LoopExit.nextModelCall :=
  C6_malformed_markup_hard_failure false _ _ ⟨[], [], false⟩ (str "<thinking>unclosed")
    rfl (by rfl)

/-! ## Claims C3 and C8: tool-result normalization and the store
round-trip -/

theorem searchTag_pos {dotall : Bool} {openT closeT cs : List Char} {fuel : Nat}
    (hf : 0 < fuel) {pre rest mid post : List Char}
    (ho : splitFirst openT cs = some (pre, rest))
    (hc : splitFirst closeT rest = some (mid, post))
    (hok : (dotall || noChar '\n' mid) = true) :
    searchTag dotall openT closeT fuel cs = some mid := by
  cases fuel with
  | zero => exact absurd hf (by simp)
  | succ n => simp [searchTag, ho, hc, hok]

theorem searchTag_none_of_open {dotall : Bool} {openT closeT cs : List Char}
    (ho : splitFirst openT cs = none) :
    ∀ fuel, searchTag dotall openT closeT fuel cs = none := by
  intro fuel
  cases fuel with
  | zero => rfl
  | succ n => simp [searchTag, ho]

/-- A well-formed success record whose tool name and result text contain
no markup characters is normalized to plain `Tool/Result` text. -/
theorem clean_result_record (t r : List Char)
    (ht1 : noChar '<' t = true) (ht2 : noChar '\n' t = true)
    (hr : noChar '<' r = true) :
    clean_tool_result_for_gemini (mkToolResultText t r)
      = str "Tool: " ++ t ++ str "\nResult: " ++ r := by
  have hshape : mkToolResultText t r
      = str "<tool_result><tool_name>" ++ (t ++ (str "</tool_name><result>" ++
          (r ++ str "</result></tool_result>"))) := by
    simp [mkToolResultText, List.append_assoc]
  have hlenpos : 0 < (mkToolResultText t r).length := by
    rw [hshape]; simp [List.length_append]; left; decide
  have h1 : splitFirst (str "<tool_name>") (mkToolResultText t r)
      = some (str "<tool_result>", t ++ (str "</tool_name><result>" ++
          (r ++ str "</result></tool_result>"))) := by
    rw [hshape]; rfl
  have h2 : splitFirst (str "</tool_name>")
        (t ++ (str "</tool_name><result>" ++ (r ++ str "</result></tool_result>")))
      = some (t ++ [], str "<result>" ++ (r ++ str "</result></tool_result>")) := by
    rw [splitFirst_skip (str "</tool_name>") t _ (noPre_of_noChar ht1)]; rfl
  have hname : searchTag false (str "<tool_name>") (str "</tool_name>")
        (mkToolResultText t r).length (mkToolResultText t r) = some (t ++ []) :=
    searchTag_pos hlenpos h1 h2 (by simp [ht2])
  have hxB : splitFirst (str "<result>")
        (str "</tool_name><result>" ++ (r ++ str "</result></tool_result>"))
      = some (str "</tool_name>", r ++ str "</result></tool_result>") := by rfl
  have h3 : splitFirst (str "<result>") (mkToolResultText t r)
      = some (str "<tool_result><tool_name>" ++ (t ++ str "</tool_name>"),
          r ++ str "</result></tool_result>") := by
    rw [hshape]
    rw [splitFirst_skip (str "<result>") (str "<tool_result><tool_name>") _ (by rfl)]
    rw [splitFirst_skip (str "<result>") t _ (noPre_of_noChar ht1)]
    rw [hxB]
    rfl
  have h4 : splitFirst (str "</result>") (r ++ str "</result></tool_result>")
      = some (r ++ [], str "</tool_result>") := by
    rw [splitFirst_skip (str "</result>") r _ (noPre_of_noChar hr)]; rfl
  have hres : searchTag true (str "<result>") (str "</result>")
        (mkToolResultText t r).length (mkToolResultText t r) = some (r ++ []) :=
    searchTag_pos hlenpos h3 h4 (by simp)
  have hcond1 : containsSub (str "<tool_result>") (mkToolResultText t r) = true := by
    rw [hshape]; rfl
  have hcond2 : containsSub (str "</tool_result>") (mkToolResultText t r) = true := by
    rw [hshape]
    unfold containsSub
    rw [splitFirst_skip (str "</tool_result>") (str "<tool_result><tool_name>") _ (by rfl)]
    rw [splitFirst_skip (str "</tool_result>") t _ (noPre_of_noChar ht1)]
    rw [splitFirst_skip (str "</tool_result>") (str "</tool_name><result>") _ (by rfl)]
    rw [splitFirst_skip (str "</tool_result>") r _ (noPre_of_noChar hr)]
    rfl
  unfold clean_tool_result_for_gemini
  rw [hcond1, hcond2, hname, hres]
  simp

/-- A well-formed error record whose tool name and error text contain
no markup characters is normalized to plain `Tool/Error` text. -/
theorem clean_error_record (t e : List Char)
    (ht1 : noChar '<' t = true) (ht2 : noChar '\n' t = true)
    (he : noChar '<' e = true) :
    clean_tool_result_for_gemini (mkToolErrorText t e)
      = str "Tool: " ++ t ++ str "\nError: " ++ e := by
  have hshape : mkToolErrorText t e
      = str "<tool_result><tool_name>" ++ (t ++ (str "</tool_name><error>" ++
          (e ++ str "</error></tool_result>"))) := by
    simp [mkToolErrorText, List.append_assoc]
  have hlenpos : 0 < (mkToolErrorText t e).length := by
    rw [hshape]; simp [List.length_append]; left; decide
  have h1 : splitFirst (str "<tool_name>") (mkToolErrorText t e)
      = some (str "<tool_result>", t ++ (str "</tool_name><error>" ++
          (e ++ str "</error></tool_result>"))) := by
    rw [hshape]; rfl
  have h2 : splitFirst (str "</tool_name>")
        (t ++ (str "</tool_name><error>" ++ (e ++ str "</error></tool_result>")))
      = some (t ++ [], str "<error>" ++ (e ++ str "</error></tool_result>")) := by
    rw [splitFirst_skip (str "</tool_name>") t _ (noPre_of_noChar ht1)]; rfl
  have hname : searchTag false (str "<tool_name>") (str "</tool_name>")
        (mkToolErrorText t e).length (mkToolErrorText t e) = some (t ++ []) :=
    searchTag_pos hlenpos h1 h2 (by simp [ht2])
  have hresnone : splitFirst (str "<result>") (mkToolErrorText t e) = none := by
    rw [hshape]
    rw [splitFirst_skip (str "<result>") (str "<tool_result><tool_name>") _ (by rfl)]
    rw [splitFirst_skip (str "<result>") t _ (noPre_of_noChar ht1)]
    rw [splitFirst_skip (str "<result>") (str "</tool_name><error>") _ (by rfl)]
    rw [splitFirst_skip (str "<result>") e _ (noPre_of_noChar he)]
    rfl
  have hresN : searchTag true (str "<result>") (str "</result>")
        (mkToolErrorText t e).length (mkToolErrorText t e) = none :=
    searchTag_none_of_open hresnone _
  have hxB : splitFirst (str "<error>")
        (str "</tool_name><error>" ++ (e ++ str "</error></tool_result>"))
      = some (str "</tool_name>", e ++ str "</error></tool_result>") := by rfl
  have h3 : splitFirst (str "<error>") (mkToolErrorText t e)
      = some (str "<tool_result><tool_name>" ++ (t ++ str "</tool_name>"),
          e ++ str "</error></tool_result>") := by
    rw [hshape]
    rw [splitFirst_skip (str "<error>") (str "<tool_result><tool_name>") _ (by rfl)]
    rw [splitFirst_skip (str "<error>") t _ (noPre_of_noChar ht1)]
    rw [hxB]
    rfl
  have h4 : splitFirst (str "</error>") (e ++ str "</error></tool_result>")
      = some (e ++ [], str "</tool_result>") := by
    rw [splitFirst_skip (str "</error>") e _ (noPre_of_noChar he)]; rfl
  have herr : searchTag true (str "<error>") (str "</error>")
        (mkToolErrorText t e).length (mkToolErrorText t e) = some (e ++ []) :=
    searchTag_pos hlenpos h3 h4 (by simp)
  have hcond1 : containsSub (str "<tool_result>") (mkToolErrorText t e) = true := by
    rw [hshape]; rfl
  have hcond2 : containsSub (str "</tool_result>") (mkToolErrorText t e) = true := by
    rw [hshape]
    unfold containsSub
    rw [splitFirst_skip (str "</tool_result>") (str "<tool_result><tool_name>") _ (by rfl)]
    rw [splitFirst_skip (str "</tool_result>") t _ (noPre_of_noChar ht1)]
    rw [splitFirst_skip (str "</tool_result>") (str "</tool_name><error>") _ (by rfl)]
    rw [splitFirst_skip (str "</tool_result>") e _ (noPre_of_noChar he)]
    rfl
  unfold clean_tool_result_for_gemini
  rw [hcond1, hcond2, hname, hresN, herr]
  simp

theorem no_framing_result_out (t r : List Char)
    (ht : noChar '<' t = true) (hr : noChar '<' r = true) :
    containsSub (str "<tool_result>") (str "Tool: " ++ t ++ str "\nResult: " ++ r) = false ∧
    containsSub (str "</tool_result>") (str "Tool: " ++ t ++ str "\nResult: " ++ r) = false := by
  have hshape : str "Tool: " ++ t ++ str "\nResult: " ++ r
      = str "Tool: " ++ (t ++ (str "\nResult: " ++ r)) := by
    simp [List.append_assoc]
  constructor
  · unfold containsSub
    rw [hshape]
    rw [splitFirst_skip (str "<tool_result>") (str "Tool: ") _ (by rfl)]
    rw [splitFirst_skip (str "<tool_result>") t _ (noPre_of_noChar ht)]
    rw [splitFirst_skip (str "<tool_result>") (str "\nResult: ") _ (by rfl)]
    rw [show splitFirst (str "<tool_result>") r = none from splitFirst_none_of_noChar hr]
    rfl
  · unfold containsSub
    rw [hshape]
    rw [splitFirst_skip (str "</tool_result>") (str "Tool: ") _ (by rfl)]
    rw [splitFirst_skip (str "</tool_result>") t _ (noPre_of_noChar ht)]
    rw [splitFirst_skip (str "</tool_result>") (str "\nResult: ") _ (by rfl)]
    rw [show splitFirst (str "</tool_result>") r = none from splitFirst_none_of_noChar hr]
    rfl

theorem no_framing_error_out (t e : List Char)
    (ht : noChar '<' t = true) (he : noChar '<' e = true) :
    containsSub (str "<tool_result>") (str "Tool: " ++ t ++ str "\nError: " ++ e) = false ∧
    containsSub (str "</tool_result>") (str "Tool: " ++ t ++ str "\nError: " ++ e) = false := by
  have hshape : str "Tool: " ++ t ++ str "\nError: " ++ e
      = str "Tool: " ++ (t ++ (str "\nError: " ++ e)) := by
    simp [List.append_assoc]
  constructor
  · unfold containsSub
    rw [hshape]
    rw [splitFirst_skip (str "<tool_result>") (str "Tool: ") _ (by rfl)]
    rw [splitFirst_skip (str "<tool_result>") t _ (noPre_of_noChar ht)]
    rw [splitFirst_skip (str "<tool_result>") (str "\nError: ") _ (by rfl)]
    rw [show splitFirst (str "<tool_result>") e = none from splitFirst_none_of_noChar he]
    rfl
  · unfold containsSub
    rw [hshape]
    rw [splitFirst_skip (str "</tool_result>") (str "Tool: ") _ (by rfl)]
    rw [splitFirst_skip (str "</tool_result>") t _ (noPre_of_noChar ht)]
    rw [splitFirst_skip (str "</tool_result>") (str "\nError: ") _ (by rfl)]
    rw [show splitFirst (str "</tool_result>") e = none from splitFirst_none_of_noChar he]
    rfl

theorem clean_id_of_no_open {content : List Char}
    (h : containsSub (str "<tool_result>") content = false) :
    clean_tool_result_for_gemini content = content := by
  simp [clean_tool_result_for_gemini, h]

/-- Claim C3 (amended): every tool-result record whose tool name and
embedded result/error text are free of markup characters is normalized
to plain `Tool: X` / `Result: Y` (or `Error: Y`) text with no
tool-result framing markup left, on both the persistent-store retrieval
path and the in-memory fallback path; a record whose embedded payload
itself contains framing markup can survive normalization with the
framing verbatim (see the counterexample), so the invariant holds only
for such framing-free payloads. -/
theorem C3_normalized_histories_framing_free (role t r e : List Char)
    (ht1 : noChar '<' t = true) (ht2 : noChar '\n' t = true)
    (hr : noChar '<' r = true) (he : noChar '<' e = true) :
    clean_tool_result_for_gemini (mkToolResultText t r)
      = str "Tool: " ++ t ++ str "\nResult: " ++ r ∧
    clean_tool_result_for_gemini (mkToolErrorText t e)
      = str "Tool: " ++ t ++ str "\nError: " ++ e ∧
    containsSub (str "<tool_result>")
      (clean_tool_result_for_gemini (mkToolResultText t r)) = false ∧
    containsSub (str "</tool_result>")
      (clean_tool_result_for_gemini (mkToolResultText t r)) = false ∧
    containsSub (str "<tool_result>")
      (clean_tool_result_for_gemini (mkToolErrorText t e)) = false ∧
    containsSub (str "</tool_result>")
      (clean_tool_result_for_gemini (mkToolErrorText t e)) = false ∧
    clean_history_for_gemini [⟨role, mkToolResultText t r⟩]
      = [⟨role, str "Tool: " ++ t ++ str "\nResult: " ++ r⟩] ∧
    get_conversation_history [⟨role, mkToolResultText t r, some t, some r, 1⟩] 50
      = [⟨role, str "Tool: " ++ t ++ str "\nResult: " ++ r⟩] := by
  have hres := clean_result_record t r ht1 ht2 hr
  have herr := clean_error_record t e ht1 ht2 he
  refine ⟨hres, herr, ?_, ?_, ?_, ?_, ?_, ?_⟩
  · rw [hres]; exact (no_framing_result_out t r ht1 hr).1
  · rw [hres]; exact (no_framing_result_out t r ht1 hr).2
  · rw [herr]; exact (no_framing_error_out t e ht1 he).1
  · rw [herr]; exact (no_framing_error_out t e ht1 he).2
  · simp [clean_history_for_gemini, hres]
  · simp [get_conversation_history, sortByOrder, insertByOrder, hres]

theorem C3_normalized_histories_framing_free_witness :
    clean_tool_result_for_gemini (mkToolResultText (str "read_file") (str "ok"))
      = str "Tool: " ++ str "read_file" ++ str "\nResult: " ++ str "ok" ∧
    clean_tool_result_for_gemini (mkToolErrorText (str "read_file") (str "fail"))
      = str "Tool: " ++ str "read_file" ++ str "\nError: " ++ str "fail" :=
  ⟨(C3_normalized_histories_framing_free (str "user") (str "read_file") (str "ok")
      (str "fail") (by decide) (by decide) (by decide) (by decide)).1,
   (C3_normalized_histories_framing_free (str "user") (str "read_file") (str "ok")
      (str "fail") (by decide) (by decide) (by decide) (by decide)).2.1⟩

/-- Claim C3 (counterexample): a tool-result record whose result text
itself embeds a `<tool_result>...</tool_result>` block keeps the raw
framing markup verbatim after normalization, so such an entry of the
outbound history still contains the framing. -/
theorem C3_counterexample :
    (clean_history_for_gemini
        [⟨str "user", mkToolResultText (str "read_file")
            (str "A<tool_result>B</tool_result>C")⟩]).map
      (fun m => (containsSub (str "<tool_result>") m.text,
                 containsSub (str "</tool_result>") m.text))
      = [(true, true)] := by decide

/-- The Turn sequence `saveTurn` produces when a session saves these
role/content pairs in order into a fresh conversation. -/
def saveAll (ps : List (List Char × List Char)) : List StoredMsg :=
  ps.foldl (fun db p => save_message db p.1 p.2 none none) []

theorem le_foldl_maxOrder : ∀ (db : List StoredMsg) (init : Nat),
    init ≤ db.foldl (fun a x => max a x.messageOrder) init := by
  intro db
  induction db with
  | nil => intro init; exact Nat.le_refl init
  | cons x xs ih =>
    intro init
    exact le_trans (Nat.le_max_left init x.messageOrder) (ih (max init x.messageOrder))

theorem mem_le_foldl_maxOrder : ∀ (db : List StoredMsg) (init : Nat) (m : StoredMsg),
    m ∈ db → m.messageOrder ≤ db.foldl (fun a x => max a x.messageOrder) init := by
  intro db
  induction db with
  | nil => intro _ m hm; exact absurd hm (List.not_mem_nil m)
  | cons x xs ih =>
    intro init m hm
    rcases List.mem_cons.mp hm with h | h
    · subst h
      exact le_trans (Nat.le_max_right init m.messageOrder)
        (le_foldl_maxOrder xs (max init m.messageOrder))
    · exact ih (max init x.messageOrder) m h

theorem mem_le_maxOrder {db : List StoredMsg} {m : StoredMsg} (hm : m ∈ db) :
    m.messageOrder ≤ maxOrder db :=
  mem_le_foldl_maxOrder db 0 m hm

/-- The store is ordered by `message_order`. -/
def SortedLe (db : List StoredMsg) : Prop :=
  List.Pairwise (fun a b => a.messageOrder ≤ b.messageOrder) db

theorem sortByOrder_eq_self : ∀ {db : List StoredMsg}, SortedLe db → sortByOrder db = db := by
  intro db
  induction db with
  | nil => intro _; rfl
  | cons x xs ih =>
    intro h
    have hx := (List.pairwise_cons.mp h).1
    have hxs := (List.pairwise_cons.mp h).2
    simp only [sortByOrder, ih hxs]
    cases xs with
    | nil => rfl
    | cons y ys =>
      simp [insertByOrder, hx y (List.mem_cons_self y ys)]

theorem sortedLe_save (db : List StoredMsg) (role content : List Char)
    (tn tr : Option (List Char)) (h : SortedLe db) :
    SortedLe (save_message db role content tn tr) := by
  unfold save_message SortedLe
  rw [List.pairwise_append]
  refine ⟨h, List.pairwise_singleton _ _, ?_⟩
  intro a ha b hb
  simp only [List.mem_singleton] at hb
  subst hb
  exact le_trans (mem_le_maxOrder ha) (Nat.le_succ _)

theorem saveAll_sorted : ∀ (ps : List (List Char × List Char)) (acc : List StoredMsg),
    SortedLe acc →
    SortedLe (ps.foldl (fun db p => save_message db p.1 p.2 none none) acc) := by
  intro ps
  induction ps with
  | nil => intro acc h; exact h
  | cons p ps ih =>
    intro acc h
    exact ih _ (sortedLe_save acc p.1 p.2 none none h)

theorem saveAll_foldl_map_role : ∀ (ps : List (List Char × List Char)) (acc : List StoredMsg),
    ((ps.foldl (fun db p => save_message db p.1 p.2 none none) acc).map StoredMsg.role)
      = acc.map StoredMsg.role ++ ps.map Prod.fst := by
  intro ps
  induction ps with
  | nil => intro acc; simp
  | cons p ps ih =>
    intro acc
    rw [List.foldl_cons, ih]
    simp [save_message]

theorem saveAll_foldl_map_content : ∀ (ps : List (List Char × List Char)) (acc : List StoredMsg),
    ((ps.foldl (fun db p => save_message db p.1 p.2 none none) acc).map StoredMsg.content)
      = acc.map StoredMsg.content ++ ps.map Prod.snd := by
  intro ps
  induction ps with
  | nil => intro acc; simp
  | cons p ps ih =>
    intro acc
    rw [List.foldl_cons, ih]
    simp [save_message]

theorem saveAll_length (ps : List (List Char × List Char)) :
    (saveAll ps).length = ps.length := by
  have h := congrArg List.length (saveAll_foldl_map_role ps [])
  simpa [saveAll] using h

/-- Claim C8 (amended): Turns saved via `saveTurn` and retrieved via
`getHistory` (with the retrieval limit at least the number of saved
Turns) come back with exactly the saved roles in the saved order, the
contents normalized by the retrieval-time cleaning; and that
normalization is idempotent on records whose embedded payload is free of
framing markup — re-normalizing the already-normalized text leaves it
unchanged.  Idempotence does not hold for records whose payload embeds a
tool-result record (see the counterexample). -/
theorem C8_round_trip (ps : List (List Char × List Char)) (limit : Nat)
    (hlen : ps.length ≤ limit) (t r : List Char)
    (ht1 : noChar '<' t = true) (ht2 : noChar '\n' t = true) (hr : noChar '<' r = true) :
    (get_conversation_history (saveAll ps) limit).map HMsg.role = ps.map Prod.fst ∧
    (get_conversation_history (saveAll ps) limit).map HMsg.text
      = ps.map (fun p => clean_tool_result_for_gemini p.2) ∧
    clean_tool_result_for_gemini (clean_tool_result_for_gemini (mkToolResultText t r))
      = clean_tool_result_for_gemini (mkToolResultText t r) := by
  have hs : sortByOrder (saveAll ps) = saveAll ps :=
    sortByOrder_eq_self (saveAll_sorted ps [] List.Pairwise.nil)
  have htake : (saveAll ps).take limit = saveAll ps :=
    List.take_of_length_le (by rw [saveAll_length]; exact hlen)
  refine ⟨?_, ?_, ?_⟩
  · unfold get_conversation_history
    rw [hs, htake, List.map_map]
    have h := saveAll_foldl_map_role ps []
    simpa [saveAll, Function.comp] using h
  · unfold get_conversation_history
    rw [hs, htake, List.map_map]
    have h := saveAll_foldl_map_content ps []
    have h2 : (saveAll ps).map (fun m => clean_tool_result_for_gemini m.content)
        = ps.map (fun p => clean_tool_result_for_gemini p.2) := by
      have h3 : (saveAll ps).map (fun m => clean_tool_result_for_gemini m.content)
          = ((saveAll ps).map StoredMsg.content).map clean_tool_result_for_gemini := by
        rw [List.map_map]; rfl
      have h4 : (saveAll ps).map StoredMsg.content = ps.map Prod.snd := by
        simpa [saveAll] using h
      rw [h3, h4, List.map_map]
      rfl
    simpa [Function.comp] using h2
  · rw [clean_result_record t r ht1 ht2 hr]
    exact clean_id_of_no_open (no_framing_result_out t r ht1 hr).1

theorem C8_round_trip_witness :
    (get_conversation_history (saveAll [(str "user", str "hi"), (str "model", str "plan")]) 50).map
        HMsg.role = [str "user", str "model"] ∧
    clean_tool_result_for_gemini
        (clean_tool_result_for_gemini (mkToolResultText (str "list_files") (str "a.txt")))
      = clean_tool_result_for_gemini (mkToolResultText (str "list_files") (str "a.txt")) :=
  ⟨(C8_round_trip [(str "user", str "hi"), (str "model", str "plan")] 50 (by decide)
      (str "list_files") (str "a.txt") (by decide) (by decide) (by decide)).1,
   (C8_round_trip [(str "user", str "hi"), (str "model", str "plan")] 50 (by decide)
      (str "list_files") (str "a.txt") (by decide) (by decide) (by decide)).2.2⟩

/-- Claim C8 (counterexample): normalization is not idempotent — for a
success record whose result text itself embeds an error record,
normalizing once yields `Tool/Result` text still carrying the inner
framing, and normalizing that text again rewrites it differently. -/
theorem C8_counterexample :
    clean_tool_result_for_gemini (clean_tool_result_for_gemini
        (mkToolResultText (str "p") (mkToolErrorText (str "q") (str "boom"))))
      ≠ clean_tool_result_for_gemini
          (mkToolResultText (str "p") (mkToolErrorText (str "q") (str "boom"))) := by
  decide

theorem lexRun_append (xs : List Char) : ∀ (st : LexSt) (ys : List Char),
    lexRun st (xs ++ ys) = (lexRun st xs).bind fun st' => lexRun st' ys := by
  induction xs with
  | nil => intro st ys; simp [lexRun]
  | cons c cs ih =>
    intro st ys
    simp only [List.cons_append, lexRun]
    cases hstep : lexStep st c with
    | none => simp
    | some st1 => simp [ih st1 ys]

theorem lexRun_htmlEscape (s : List Char) : ∀ (tk : List XTok) (a : List Char),
    lexRun ⟨tk, .txt a⟩ (htmlEscape s) = some ⟨tk, .txt (s.reverse ++ a)⟩ := by
  induction s with
  | nil => intro tk a; rfl
  | cons c cs ih =>
    intro tk a
    by_cases h1 : c = '&'
    · subst h1
      have hsplit : htmlEscape ('&' :: cs) = str "&amp;" ++ htmlEscape cs := rfl
      have hstep : lexRun (⟨tk, .txt a⟩ : LexSt) (str "&amp;")
          = some ⟨tk, .txt ('&' :: a)⟩ := by rfl
      rw [hsplit, lexRun_append, hstep]
      simp [ih tk ('&' :: a), List.append_assoc]
    · by_cases h2 : c = '<'
      · subst h2
        have hsplit : htmlEscape ('<' :: cs) = str "&lt;" ++ htmlEscape cs := rfl
        have hstep : lexRun (⟨tk, .txt a⟩ : LexSt) (str "&lt;")
            = some ⟨tk, .txt ('<' :: a)⟩ := by rfl
        rw [hsplit, lexRun_append, hstep]
        simp [ih tk ('<' :: a), List.append_assoc]
      · by_cases h3 : c = '>'
        · subst h3
          have hsplit : htmlEscape ('>' :: cs) = str "&gt;" ++ htmlEscape cs := rfl
          have hstep : lexRun (⟨tk, .txt a⟩ : LexSt) (str "&gt;")
              = some ⟨tk, .txt ('>' :: a)⟩ := by rfl
          rw [hsplit, lexRun_append, hstep]
          simp [ih tk ('>' :: a), List.append_assoc]
        · by_cases h4 : c = '"'
          · subst h4
            have hsplit : htmlEscape ('"' :: cs) = str "&quot;" ++ htmlEscape cs := rfl
            have hstep : lexRun (⟨tk, .txt a⟩ : LexSt) (str "&quot;")
                = some ⟨tk, .txt ('"' :: a)⟩ := by rfl
            rw [hsplit, lexRun_append, hstep]
            simp [ih tk ('"' :: a), List.append_assoc]
          · by_cases h5 : c = '\x27'
            · subst h5
              have hsplit : htmlEscape ('\x27' :: cs) = str "&#x27;" ++ htmlEscape cs := rfl
              have hstep : lexRun (⟨tk, .txt a⟩ : LexSt) (str "&#x27;")
                  = some ⟨tk, .txt ('\x27' :: a)⟩ := by rfl
              rw [hsplit, lexRun_append, hstep]
              simp [ih tk ('\x27' :: a), List.append_assoc]
            · have hsplit : htmlEscape (c :: cs) = [c] ++ htmlEscape cs := by
                simp [htmlEscape, h1, h2, h3, h4, h5]
              have hstep : lexRun (⟨tk, .txt a⟩ : LexSt) [c]
                  = some ⟨tk, .txt (c :: a)⟩ := by
                simp [lexRun, lexStep, h1, h2]
              rw [hsplit, lexRun_append, hstep]
              simp [ih tk (c :: a), List.append_assoc]

theorem firstNonReserved_append (pre : List XElem) (act : XElem) (post : List XElem)
    (hpre : ∀ e ∈ pre, e.tag ∈ reservedTags) (hact : act.tag ∉ reservedTags) :
    firstNonReserved (pre ++ act :: post) = some act := by
  induction pre with
  | nil => simp [firstNonReserved, hact]
  | cons e pre' ih =>
    have he : e.tag ∈ reservedTags := hpre e (List.mem_cons_self e pre')
    simp only [List.cons_append, firstNonReserved, he]
    simp only [not_not, he, if_neg, not_true]
    exact ih fun x hx => hpre x (List.mem_cons_of_mem e hx)

theorem dict_foldl_eq_map (f : XElem → List Char × List Char) :
    ∀ (children : List XElem) (acc : List (List Char × List Char)),
      (∀ c ∈ children, ∀ p ∈ acc, p.1 ≠ c.tag) →
      ((children.map XElem.tag).Nodup) →
      (∀ c ∈ children, f c = (c.tag, trimChars (c.textOf.getD []))) →
      children.foldl (fun m c => dictInsert m c.tag (trimChars (c.textOf.getD []))) acc
        = acc ++ children.map f := by
  intro children
  induction children with
  | nil => intro acc _ _ _; simp
  | cons c cs ih =>
    intro acc hdisj hnodup hf
    have hfind : (acc.find? fun p => p.1 == c.tag) = none := by
      rw [List.find?_eq_none]
      intro p hp
      simp only [beq_iff_eq]
      exact hdisj c (List.mem_cons_self c cs) p hp
    have hins : dictInsert acc c.tag (trimChars (c.textOf.getD []))
        = acc ++ [(c.tag, trimChars (c.textOf.getD []))] := by
      simp [dictInsert, hfind]
    rw [List.foldl_cons, hins]
    have hsplitn : c.tag ∉ List.map XElem.tag cs ∧ (List.map XElem.tag cs).Nodup := by
      rw [List.map_cons, List.nodup_cons] at hnodup
      exact hnodup
    have hdisj' : ∀ x ∈ cs, ∀ p ∈ acc ++ [(c.tag, trimChars (c.textOf.getD []))], p.1 ≠ x.tag := by
      intro x hx p hp
      rcases List.mem_append.mp hp with h | h
      · exact hdisj x (List.mem_cons_of_mem c hx) p h
      · simp only [List.mem_singleton] at h
        subst h
        intro he
        exact hsplitn.1 (by
          rw [show c.tag = x.tag from he]
          exact List.mem_map_of_mem XElem.tag hx)
    rw [ih _ hdisj' hsplitn.2 (fun x hx => hf x (List.mem_cons_of_mem c hx))]
    simp [hf c (List.mem_cons_self c cs)]

theorem paramsOfChildren_eq_map (children : List XElem)
    (hnodup : (children.map XElem.tag).Nodup) :
    paramsOfChildren children
      = children.map (fun c => (c.tag, trimChars (c.textOf.getD []))) := by
  have h := dict_foldl_eq_map (fun c => (c.tag, trimChars (c.textOf.getD []))) children []
    (by intro c _ p hp; exact absurd hp (List.not_mem_nil p)) hnodup
    (by intro c _; rfl)
  simpa [paramsOfChildren] using h

/-- Claim C2: for every valid structured-text model response with
exactly one action block — the first child element whose tag is not a
reserved wrapper/reasoning tag — the parser returns that element's tag
as the tool name and its child elements, flattened to trimmed string
values, as the parameter mapping; and the entity references produced by
the step-2 escaping pass are restored to the original characters by the
structural parse of the extracted values. -/
theorem C2_action_extraction_and_unescaping (pre post : List XElem) (act : XElem)
    (hpre : ∀ e ∈ pre, e.tag ∈ reservedTags)
    (hact : act.tag ∉ reservedTags)
    (hnodup : (act.children.map XElem.tag).Nodup) :
    (extractResponse (XElem.mk (str "root") none (pre ++ act :: post))).2.1 = some act.tag ∧
    (extractResponse (XElem.mk (str "root") none (pre ++ act :: post))).2.2
      = act.children.map (fun c => (c.tag, trimChars (c.textOf.getD []))) ∧
    ∀ s tk a, lexRun ⟨tk, .txt a⟩ (htmlEscape s) = some ⟨tk, .txt (s.reverse ++ a)⟩ := by
  have hfirst : firstNonReserved (pre ++ act :: post) = some act :=
    firstNonReserved_append pre act post hpre hact
  refine ⟨?_, ?_, fun s tk a => lexRun_htmlEscape s tk a⟩
  · simp [extractResponse, XElem.children, hfirst]
  · simp [extractResponse, XElem.children, hfirst]
    obtain ⟨atag, atext, achildren⟩ := act
    exact paramsOfChildren_eq_map achildren hnodup

def renderAction (th t f p : List Char) : List Char :=
  str "<thinking>" ++ th ++ str "</thinking><" ++ t ++ str "><" ++ f ++ str ">" ++ p ++
    str "</" ++ f ++ str "></" ++ t ++ str ">"

theorem trimChars_eq_self {c d : Char} (mid : List Char)
    (hc : isWs c = false) (hd : isWs d = false) :
    trimChars (c :: (mid ++ [d])) = c :: (mid ++ [d]) := by
  unfold trimChars
  rw [List.dropWhile_cons]
  simp only [hc, Bool.false_eq_true, if_neg, not_false_iff]
  rw [show (c :: (mid ++ [d])).reverse = d :: (mid.reverse ++ [c]) by simp]
  rw [List.dropWhile_cons]
  simp only [hd, Bool.false_eq_true, if_neg, not_false_iff]
  simp

example (th t f p : List Char) :
    renderAction th t f p
      = '<' :: ((str "thinking>" ++ th ++ str "</thinking><" ++ t ++ str "><" ++ f ++
          str ">" ++ p ++ str "</" ++ f ++ str "></" ++ t) ++ ['>']) := by
  simp only [renderAction, List.append_assoc, List.cons_append]
  rfl

theorem lexStep_amp (st : LexSt) :
    lexStep st '&' = none ∨ ∃ tacc, lexStep st '&' = some ⟨st.toks, .ent [] tacc⟩ := by
  obtain ⟨tk, mode⟩ := st
  cases mode with
  | txt tacc => exact Or.inr ⟨tacc, rfl⟩
  | ent eacc tacc => exact Or.inl rfl
  | tagStart0 => exact Or.inl rfl
  | openName nacc => exact Or.inl rfl
  | selfClose nacc => exact Or.inl rfl
  | closeStart => exact Or.inl rfl
  | closeName nacc => exact Or.inl rfl

theorem lexStep_ent_space (tk : List XTok) (eacc tacc : List Char) :
    lexStep ⟨tk, .ent eacc tacc⟩ ' ' = none := rfl

theorem lexRun_bare_amp (st : LexSt) (a b : List Char) :
    lexRun st (a ++ '&' :: ' ' :: b) = none := by
  rw [lexRun_append]
  cases hrun : lexRun st a with
  | none => rfl
  | some st1 =>
    show lexRun st1 ('&' :: ' ' :: b) = none
    simp only [lexRun]
    rcases lexStep_amp st1 with h | ⟨tacc, h⟩
    · simp [h]
    · rw [h]
      show lexRun ⟨st1.toks, .ent [] tacc⟩ (' ' :: b) = none
      simp [lexRun, lexStep_ent_space]

theorem replaceAllGo_of_none {pat rep cs : List Char} (h : splitFirst pat cs = none) :
    ∀ fuel, replaceAllGo pat rep fuel cs = cs := by
  intro fuel
  cases fuel with
  | zero => rfl
  | succ n => simp [replaceAllGo, h]

theorem subEscape_of_no_open {openT closeT cs : List Char}
    (h : splitFirst openT cs = none) :
    ∀ fuel, subEscape openT closeT fuel cs = cs := by
  intro fuel
  cases fuel with
  | zero => rfl
  | succ n => simp [subEscape, h]

theorem subEscTag_of_no_open (tag : String) {cs : List Char}
    (h : splitFirst (str ("<" ++ tag ++ ">")) cs = none) :
    subEscTag tag cs = cs := by
  unfold subEscTag
  exact subEscape_of_no_open h _

/-- Claim C10: the lenient-escaping pass protects only the four fields
command, result, question and answer; a model response whose action
block carries any other parameter field containing a bare markup
metacharacter (here an ampersand followed by a space, which cannot begin
an entity reference) makes the whole parse a hard failure — the parser
returns the failure value, not a parameter mapping — even though
reasoning and action structure are otherwise well-formed.  The
`splitFirst`-hypotheses say that the four protected field tags and
markdown fences do not occur in the response, i.e. the affected field is
not a protected one. -/
theorem C10_bare_metachar_outside_protected_fields (th t f p a b : List Char)
    (hp : p = a ++ '&' :: ' ' :: b)
    (hfence : splitFirst (str "```") (renderAction th t f p) = none)
    (hfencex : splitFirst (str "```xml") (renderAction th t f p) = none)
    (hcmd : splitFirst (str "<command>") (renderAction th t f p) = none)
    (hres : splitFirst (str "<result>") (renderAction th t f p) = none)
    (hq : splitFirst (str "<question>") (renderAction th t f p) = none)
    (hans : splitFirst (str "<answer>") (renderAction th t f p) = none) :
    parse_agent_response (renderAction th t f p) = none := by
  have hdecomp : renderAction th t f p
      = '<' :: ((str "thinking>" ++ th ++ str "</thinking><" ++ t ++ str "><" ++ f ++
          str ">" ++ p ++ str "</" ++ f ++ str "></" ++ t) ++ ['>']) := by
    simp only [renderAction, List.append_assoc, List.cons_append]
    rfl
  have hstrip : stripFences (renderAction th t f p) = renderAction th t f p := by
    unfold stripFences replaceAllSub
    rw [replaceAllGo_of_none hfencex, replaceAllGo_of_none hfence]
    rw [hdecomp]
    exact trimChars_eq_self _ (by decide) (by decide)
  have hesc : escapeFields (renderAction th t f p) = renderAction th t f p := by
    unfold escapeFields
    rw [subEscTag_of_no_open "command" hcmd, subEscTag_of_no_open "result" hres,
        subEscTag_of_no_open "question" hq, subEscTag_of_no_open "answer" hans]
  have hw : wrapRoot (renderAction th t f p)
      = (str "<root>" ++ (str "<thinking>" ++ (th ++ (str "</thinking><" ++ (t ++
          (str "><" ++ (f ++ (str ">" ++ a)))))))) ++
        '&' :: ' ' :: (b ++ (str "</" ++ (f ++ (str "></" ++ (t ++ (str ">" ++ str "</root>")))))) := by
    simp [wrapRoot, renderAction, hp, List.append_assoc]
  have hlex : lexTokens (wrapRoot (renderAction th t f p)) = none := by
    rw [hw]
    unfold lexTokens
    rw [lexRun_bare_amp]
    rfl
  unfold parse_agent_response
  rw [hstrip, hesc]
  unfold xmlParse
  rw [hlex]
  rfl

theorem C2_action_extraction_and_unescaping_witness :
    (extractResponse (XElem.mk (str "root") none
        ([XElem.mk (str "thinking") (some (str " plan ")) []] ++
          XElem.mk (str "list_files") none
            [XElem.mk (str "path") (some (str " . ")) []] :: []))).2.1
      = some (str "list_files") ∧
    (extractResponse (XElem.mk (str "root") none
        ([XElem.mk (str "thinking") (some (str " plan ")) []] ++
          XElem.mk (str "list_files") none
            [XElem.mk (str "path") (some (str " . ")) []] :: []))).2.2
      = [XElem.mk (str "path") (some (str " . ")) []].map
          (fun c => (c.tag, trimChars (c.textOf.getD []))) ∧
    lexRun ⟨[], .txt []⟩ (htmlEscape (str "a&<b>\""))
      = some ⟨[], .txt ((str "a&<b>\"").reverse ++ [])⟩ :=
  ⟨(C2_action_extraction_and_unescaping
      [XElem.mk (str "thinking") (some (str " plan ")) []] []
      (XElem.mk (str "list_files") none [XElem.mk (str "path") (some (str " . ")) []])
      (by decide) (by decide) (by decide)).1,
   (C2_action_extraction_and_unescaping
      [XElem.mk (str "thinking") (some (str " plan ")) []] []
      (XElem.mk (str "list_files") none [XElem.mk (str "path") (some (str " . ")) []])
      (by decide) (by decide) (by decide)).2.1,
   (C2_action_extraction_and_unescaping
      [XElem.mk (str "thinking") (some (str " plan ")) []] []
      (XElem.mk (str "list_files") none [XElem.mk (str "path") (some (str " . ")) []])
      (by decide) (by decide) (by decide)).2.2 (str "a&<b>\"") [] []⟩

theorem C10_bare_metachar_outside_protected_fields_witness :
    parse_agent_response (renderAction (str "I will write the file")
        (str "write_to_file") (str "content") (str "x & y")) = none :=
  C10_bare_metachar_outside_protected_fields (str "I will write the file")
    (str "write_to_file") (str "content") (str "x & y") (str "x ") (str "y")
    rfl (by rfl) (by rfl) (by rfl) (by rfl) (by rfl) (by rfl)
